import Mathlib

/-!
# Verification of Poedit's syntax highlighter core (`src/syntaxhighlighter.cpp`)

A shallow embedding of the highlighter:

* `basicHighlight` embeds `BasicSyntaxHighlighter::Highlight` — the
  structural matcher detecting leading/trailing whitespace, non-breaking
  spaces, duplicate blank runs, and two-character escape sequences.
* `regexHighlight` embeds `RegexSyntaxHighlighter::Highlight` with the
  regex engine's behaviour (the match stream and any thrown error)
  abstracted into an explicit `RegexRunResult`.
* `compositeHighlight` embeds `CompositeSyntaxHighlighter::Highlight`.
* `ForItem` embeds `SyntaxHighlighter::ForItem`, with the precompiled
  `regex_search` content sniffers abstracted into boolean oracles.

Strings are modelled as lists of code points (`List Nat`), matching the
`std::wstring` iteration of the source; spans carry half-open code-unit
ranges exactly as emitted through the highlight callback.
-/

/-- `TextKind` from the highlighter interface: the category tag attached
to every highlighted span. -/
inductive TextKind where
  | LeadingWhitespace
  | Escape
  | Markup
  | Placeholder
deriving DecidableEq, Repr

/-- One highlight callback invocation: `highlight(start, stop, kind)`,
a half-open range `[start, stop)` over code-unit positions. -/
structure Span where
  start : Nat
  stop : Nat
  kind : TextKind
deriving DecidableEq, Repr

/-- ICU's `u_isblank`: true for U+0009 (TAB) and the Unicode `Zs` space
separators (U+0020, U+00A0, U+1680, U+2000..U+200A, U+202F, U+205F,
U+3000). Used by the structural matcher for every blank test. -/
def u_isblank (c : Nat) : Bool :=
  c = 0x9 || c = 0x20 || c = 0xA0 || c = 0x1680 ||
    (0x2000 ≤ c && c ≤ 0x200A) || c = 0x202F || c = 0x205F || c = 0x3000

/-- The fixed escape-letter set of the `switch` in
`BasicSyntaxHighlighter::Highlight`: `0 a b f n r t v \`. -/
def isEscapeChar (c : Nat) : Bool :=
  c = 48 || c = 97 || c = 98 || c = 102 || c = 110 ||
    c = 114 || c = 116 || c = 118 || c = 92

/-- Closing an open blank run at position `pos`: emit the run span iff it
spans at least two code points (`endpos - blank_block_pos >= 2`). -/
def closeRun (run : Option Nat) (pos : Nat) : List Span :=
  match run with
  | some r => if 2 ≤ pos - r then [⟨r, pos, .LeadingWhitespace⟩] else []
  | none => []

/-- The main forward pass of `BasicSyntaxHighlighter::Highlight`
(the third `for` loop): `pos` is the current iterator offset and `run`
is `blank_block_pos` (`none` encodes `-1`). Each step first runs the
non-breaking-space / blank-run `if`/`else if` chain, then the separate
escape-sequence `if`, which may consume the following code point (or
`break` when the backslash is last). -/
def mainScan : List Nat → Nat → Option Nat → List Span
  | [], _, _ => []
  | c :: rest, pos, run =>
    let emitted :=
      if c = 0xA0 then [Span.mk pos (pos + 1) .LeadingWhitespace]
      else if u_isblank c then []
      else closeRun run pos
    let run' :=
      if c = 0xA0 then run
      else if u_isblank c then some (run.getD pos)
      else none
    if c = 92 then
      match rest with
      | [] => emitted
      | d :: rest2 =>
          emitted
            ++ (if isEscapeChar d then [Span.mk pos (pos + 2) .Escape] else [])
            ++ mainScan rest2 (pos + 2) run'
    else
      emitted ++ mainScan rest (pos + 1) run'

/-- The leading-whitespace loop: scan forward counting blanks (`wlen`),
and at the first non-blank emit `[0, wlen)` when `wlen` is non-zero.
If every code point is blank the loop finishes without emitting. -/
def leadingScan : List Nat → Nat → List Span
  | [], _ => []
  | c :: rest, wlen =>
    if u_isblank c then leadingScan rest (wlen + 1)
    else if wlen ≠ 0 then [⟨0, wlen, .LeadingWhitespace⟩] else []

/-- The trailing-whitespace loop: scan the reversed string counting
blanks, and at the first non-blank emit `[length - wlen, length)` when
`wlen` is non-zero. -/
def trailingScan (length : Nat) : List Nat → Nat → List Span
  | [], _ => []
  | c :: rest, wlen =>
    if u_isblank c then trailingScan length rest (wlen + 1)
    else if wlen ≠ 0 then [⟨length - wlen, length, .LeadingWhitespace⟩] else []

/-- `BasicSyntaxHighlighter::Highlight`: empty input emits nothing;
otherwise the leading scan, the trailing scan, and the main forward pass
run in that order, and the emitted spans are their callbacks in emission
order. -/
def basicHighlight (s : List Nat) : List Span :=
  if s.isEmpty then []
  else leadingScan s 0 ++ trailingScan s.length s.reverse 0 ++ mainScan s 0 none

/-- A span covering at least two code points (a duplicate-run or escape
span; non-breaking-space spans are one code point wide). -/
def wideSpan (sp : Span) : Bool := decide (2 ≤ sp.stop - sp.start)

/-! ## Pattern matcher (`RegexSyntaxHighlighter`) -/

/-- One match reported by the regex engine's iterator:
`match.position()` and `match.length()`. -/
structure RegexMatch where
  position : Nat
  length : Nat
deriving DecidableEq, Repr

/-- The `std::regex_error` codes distinguished by the `catch` clause in
`RegexSyntaxHighlighter::Highlight`; all remaining codes are collapsed
into `other`. -/
inductive RegexErrorCode where
  | error_complexity
  | error_stack
  | other (n : Nat)
deriving DecidableEq, Repr

/-- The regex engine's behaviour on one input, abstracted: either the
iteration finishes normally with a match stream, or it raises an error
code after having yielded some prefix of matches. -/
inductive RegexRunResult where
  | ok (found : List RegexMatch)
  | raised (found : List RegexMatch) (code : RegexErrorCode)
deriving DecidableEq, Repr

/-- The matches an engine run yielded before finishing or failing. -/
def matchesOf : RegexRunResult → List RegexMatch
  | .ok ms => ms
  | .raised ms _ => ms

/-- The emission loop body of `RegexSyntaxHighlighter::Highlight`: skip
empty matches (`if (match.empty()) continue`), emit
`[position, position + length)` with the bound kind for the rest. -/
def matchSpans (kind : TextKind) (ms : List RegexMatch) : List Span :=
  (ms.filter (fun m => m.length ≠ 0)).map
    (fun m => ⟨m.position, m.position + m.length, kind⟩)

/-- `RegexSyntaxHighlighter::Highlight` over an abstracted engine run:
the spans emitted through the callback, paired with the error propagated
to the caller (`none` when the function returns normally). The `catch`
swallows `error_complexity` and `error_stack` and rethrows everything
else. -/
def regexHighlight (kind : TextKind) (result : RegexRunResult) :
    List Span × Option RegexErrorCode :=
  match result with
  | .ok ms => (matchSpans kind ms, none)
  | .raised ms code =>
    match code with
    | .error_complexity => (matchSpans kind ms, none)
    | .error_stack => (matchSpans kind ms, none)
    | .other n => (matchSpans kind ms, some (.other n))

/-! ## Pattern library: the c-format and ruby-format pattern texts -/

/-- The `RE_C_FORMAT` pattern text (the raw string literal the c-format
`std::wregex` is compiled from). -/
def RE_C_FORMAT : String :=
  "%(\\d+\\$)?[-+ #0]\x7b0,5\x7d(\\d+|\\*)?(\\.(\\d+|\\*))?(hh|ll|[hljztL])?[%csdioxXufFeEaAgGnp]"

/-- The `RE_RUBY_FORMAT` pattern text (the raw string literal the
ruby-format `std::wregex` is compiled from). -/
def RE_RUBY_FORMAT : String :=
  "%(\\d+\\$)?[-+ #0]\x7b0,5\x7d(\\d+|\\*)?(\\.(\\d+|\\*))?(hh|ll|[hljztL])?[%csdioxXufFeEaAgGnp]"

/-- A `RegexSyntaxHighlighter` bound to a pattern text, run through an
arbitrary engine semantics `engine` (pattern text → input → matches):
the spans it emits on `s`. -/
def regexEngineSpans (engine : String → List Nat → List RegexMatch)
    (pattern : String) (kind : TextKind) (s : List Nat) : List Span :=
  matchSpans kind (engine pattern s)

/-! ## Composite matcher and the selector (`ForItem`) -/

/-- Identities of the shared single-purpose highlighter instances the
selector can place into a composite. -/
inductive HighlighterId where
  | html
  | genericPlaceholders
  | php_format
  | c_format
  | python_format
  | ruby_format
  | basic
deriving DecidableEq, Repr

/-- `CompositeSyntaxHighlighter::Highlight`: run every sub-highlighter,
in list order, against the same input; `interp` gives each shared
sub-highlighter's emission behaviour. -/
def compositeHighlight (interp : HighlighterId → List Nat → List Span)
    (subs : List HighlighterId) (s : List Nat) : List Span :=
  match subs with
  | [] => []
  | h :: t => interp h s ++ compositeHighlight interp t s

/-- Modelled from the spec: the text item capability consumed by the
selector (`catalog.h` is outside the embedded sources) — "a text item
capability exposing: primary string, optional plural string + presence
flag, and a format-kind string attribute". -/
structure CatalogItem (α : Type) where
  getString : α
  hasPlural : Bool
  getPluralString : α
  formatFlag : String

/-- Modelled from the spec: the category request mask (the `TextKind`
flag values live in `syntaxhighlighter.h`, outside the embedded
sources) — "a set of TextKind flags"; each field is one flag's
presence. -/
structure KindsMask where
  leadingWhitespace : Bool
  escape : Bool
  markup : Bool
  placeholder : Bool

/-- The selector's possible return values: `nullptr`, the shared
`BasicSyntaxHighlighter` singleton, or a freshly built composite with
the listed sub-highlighters in insertion order. -/
inductive SelResult where
  | noMatcher
  | basicOnly
  | composite (subs : List HighlighterId)
deriving DecidableEq, Repr

/-- `SyntaxHighlighter::ForItem`. The two `regex_search` content
sniffers (markup and generic placeholders, applied to the primary and
plural strings) are abstracted into the boolean oracles `htmlSearch`
and `placeholderSearch`. -/
def ForItem {α : Type} (htmlSearch placeholderSearch : α → Bool)
    (item : CatalogItem α) (mask : KindsMask) : SelResult :=
  let needsHTML := mask.markup &&
    (htmlSearch item.getString ||
      (item.hasPlural && htmlSearch item.getPluralString))
  let needsGenericPlaceholders := mask.placeholder &&
    (placeholderSearch item.getString ||
      (item.hasPlural && placeholderSearch item.getPluralString))
  if !needsHTML && !needsGenericPlaceholders && (item.formatFlag == "") then
    if mask.leadingWhitespace || mask.escape then .basicOnly else .noMatcher
  else
    .composite
      ((if needsHTML then [.html] else []) ++
       (if needsGenericPlaceholders then [.genericPlaceholders] else []) ++
       (if mask.placeholder then
          (if item.formatFlag == "php" then [.php_format]
           else if item.formatFlag == "c" then [.c_format]
           else if item.formatFlag == "python" then [.python_format]
           else if item.formatFlag == "ruby" then [.ruby_format]
           else [])
        else []) ++
       (if mask.leadingWhitespace || mask.escape then [.basic] else []))

/-! ## Basic facts about the structural matcher's scan -/

theorem u_isblank_bs : u_isblank 92 = false := by decide

theorem u_isblank_nbsp : u_isblank 0xA0 = true := by decide

theorem closeRun_none (pos : Nat) : closeRun none pos = [] := rfl

theorem closeRun_some (r pos : Nat) :
    closeRun (some r) pos =
      if 2 ≤ pos - r then [Span.mk r pos .LeadingWhitespace] else [] := rfl

theorem mem_closeRun {sp : Span} {run : Option Nat} {pos : Nat}
    (h : sp ∈ closeRun run pos) :
    ∃ r, run = some r ∧ 2 ≤ pos - r ∧ sp = Span.mk r pos .LeadingWhitespace := by
  cases run with
  | none => simp [closeRun] at h
  | some r =>
    rw [closeRun_some] at h
    by_cases hc : 2 ≤ pos - r
    · rw [if_pos hc, List.mem_singleton] at h
      exact ⟨r, rfl, hc, h⟩
    · rw [if_neg hc] at h
      exact absurd h (List.not_mem_nil sp)

theorem mainScan_nil (pos : Nat) (run : Option Nat) :
    mainScan [] pos run = [] := rfl

theorem mainScan_nbsp (rest : List Nat) (pos : Nat) (run : Option Nat) :
    mainScan (0xA0 :: rest) pos run =
      Span.mk pos (pos + 1) .LeadingWhitespace :: mainScan rest (pos + 1) run := by
  cases rest with
  | nil => simp [mainScan.eq_2, mainScan.eq_1]
  | cons d rest2 => simp [mainScan.eq_3]

theorem mainScan_blank {c : Nat} (hA : c ≠ 0xA0) (hB : u_isblank c = true)
    (rest : List Nat) (pos : Nat) (run : Option Nat) :
    mainScan (c :: rest) pos run =
      mainScan rest (pos + 1) (some (run.getD pos)) := by
  have hC : c ≠ 92 := by
    intro hc; subst hc; rw [u_isblank_bs] at hB; exact Bool.noConfusion hB
  cases rest with
  | nil => simp [mainScan.eq_2, mainScan.eq_1, hA, hB, hC]
  | cons d rest2 => simp [mainScan.eq_3, hA, hB, hC]

theorem mainScan_nonblank {c : Nat} (hA : c ≠ 0xA0) (hB : u_isblank c = false)
    (hC : c ≠ 92) (rest : List Nat) (pos : Nat) (run : Option Nat) :
    mainScan (c :: rest) pos run =
      closeRun run pos ++ mainScan rest (pos + 1) none := by
  cases rest with
  | nil => simp [mainScan.eq_2, mainScan.eq_1, hA, hB, hC]
  | cons d rest2 => simp [mainScan.eq_3, hA, hB, hC]

theorem mainScan_bs_last (pos : Nat) (run : Option Nat) :
    mainScan [92] pos run = closeRun run pos := by
  simp [mainScan.eq_2, u_isblank_bs]

theorem mainScan_bs (d : Nat) (rest2 : List Nat) (pos : Nat) (run : Option Nat) :
    mainScan (92 :: d :: rest2) pos run =
      closeRun run pos
        ++ (if isEscapeChar d then [Span.mk pos (pos + 2) .Escape] else [])
        ++ mainScan rest2 (pos + 2) none := by
  simp [mainScan.eq_3, u_isblank_bs]

theorem mainScan_start_lb_aux (n : Nat) :
    ∀ (s : List Nat), s.length ≤ n →
      ∀ (pos lb : Nat) (run : Option Nat), lb ≤ pos →
        (∀ r, run = some r → lb ≤ r) →
        ∀ sp ∈ mainScan s pos run, lb ≤ sp.start := by
  induction n with
  | zero =>
    intro s hs pos lb run _ _ sp hsp
    rw [List.length_eq_zero.mp (Nat.le_zero.mp hs)] at hsp
    rw [mainScan_nil] at hsp; cases hsp
  | succ n ih =>
    intro s hs pos lb run hpos hrun sp hsp
    cases s with
    | nil => rw [mainScan_nil] at hsp; cases hsp
    | cons c rest =>
    have hrest : rest.length ≤ n := by
      simp only [List.length_cons] at hs; omega
    by_cases hA : c = 0xA0
    · subst hA
      rw [mainScan_nbsp] at hsp
      rcases List.mem_cons.mp hsp with rfl | h2
      · exact hpos
      · exact ih rest hrest (pos + 1) lb run (by omega) hrun sp h2
    · by_cases hB : u_isblank c = true
      · rw [mainScan_blank hA hB] at hsp
        refine ih rest hrest (pos + 1) lb _ (by omega) ?_ sp hsp
        intro r hr
        cases run with
        | none =>
          simp only [Option.getD_none, Option.some.injEq] at hr
          omega
        | some r0 =>
          simp only [Option.getD_some, Option.some.injEq] at hr
          subst hr
          exact hrun r0 rfl
      · have hB' : u_isblank c = false := by
          cases h : u_isblank c with
          | false => rfl
          | true => exact absurd h hB
        by_cases hC : c = 92
        · subst hC
          cases rest with
          | nil =>
            rw [mainScan_bs_last] at hsp
            obtain ⟨r, hr, _, rfl⟩ := mem_closeRun hsp
            exact hrun r hr
          | cons d rest2 =>
            rw [mainScan_bs] at hsp
            have hrest2 : rest2.length ≤ n := by
              simp only [List.length_cons] at hrest; omega
            rcases List.mem_append.mp hsp with h1 | h2
            · rcases List.mem_append.mp h1 with h3 | h4
              · obtain ⟨r, hr, _, rfl⟩ := mem_closeRun h3
                exact hrun r hr
              · by_cases he : isEscapeChar d = true
                · rw [if_pos he, List.mem_singleton] at h4
                  subst h4
                  exact hpos
                · rw [if_neg he] at h4; cases h4
            · have := ih rest2 hrest2 (pos + 2) (pos + 2) none le_rfl
                (fun r hr => Option.noConfusion hr) sp h2
              omega
        · rw [mainScan_nonblank hA hB' hC] at hsp
          rcases List.mem_append.mp hsp with h1 | h2
          · obtain ⟨r, hr, _, rfl⟩ := mem_closeRun h1
            exact hrun r hr
          · have := ih rest hrest (pos + 1) (pos + 1) none le_rfl
              (fun r hr => Option.noConfusion hr) sp h2
            omega

/-- Every span the main pass emits from a scan state `(pos, run)` starts
at or after the open run's start (or `pos` when no run is open): the
scan never looks back past its own state. -/
theorem mainScan_start_lb (s : List Nat) (pos lb : Nat) (run : Option Nat)
    (hpos : lb ≤ pos) (hrun : ∀ r, run = some r → lb ≤ r) :
    ∀ sp ∈ mainScan s pos run, lb ≤ sp.start :=
  mainScan_start_lb_aux s.length s le_rfl pos lb run hpos hrun

/-- C3: in the structural matcher's forward pass, at a backslash with a
next code point the pass first closes any open blank run, then emits the
two-character `[pos, pos+2) -> Escape` span exactly when the next code
point is in the fixed escape set `{0,a,b,f,n,r,t,v,\}`, and resumes after
the consumed code point (which is never examined as a blank, run
boundary, non-breaking space, or new backslash); a backslash that is the
last code point stops the scan with no further emission; exactly one
Escape span starting at the backslash is emitted iff the next code point
is in the escape set. -/
theorem escape_sequence_handling (d : Nat) (rest : List Nat) (pos : Nat)
    (run : Option Nat) :
    mainScan (92 :: d :: rest) pos run =
      closeRun run pos
        ++ (if isEscapeChar d then [Span.mk pos (pos + 2) .Escape] else [])
        ++ mainScan rest (pos + 2) none
    ∧ mainScan [92] pos run = closeRun run pos
    ∧ (mainScan (92 :: d :: rest) pos run).countP
        (fun sp => decide (sp.kind = TextKind.Escape ∧ sp.start = pos))
      = if isEscapeChar d then 1 else 0 := by
  refine ⟨mainScan_bs d rest pos run, mainScan_bs_last pos run, ?_⟩
  rw [mainScan_bs, List.countP_append, List.countP_append]
  have h1 : (closeRun run pos).countP
      (fun sp => decide (sp.kind = TextKind.Escape ∧ sp.start = pos)) = 0 := by
    rw [List.countP_eq_zero]
    intro sp hsp
    obtain ⟨r, _, _, rfl⟩ := mem_closeRun hsp
    simp
  have h2 : ((if isEscapeChar d then [Span.mk pos (pos + 2) .Escape] else [])
        : List Span).countP
      (fun sp => decide (sp.kind = TextKind.Escape ∧ sp.start = pos)) =
      if isEscapeChar d then 1 else 0 := by
    by_cases he : isEscapeChar d = true
    · rw [if_pos he, if_pos he]; simp
    · rw [if_neg he, if_neg he]; simp
  have h3 : (mainScan rest (pos + 2) none).countP
      (fun sp => decide (sp.kind = TextKind.Escape ∧ sp.start = pos)) = 0 := by
    rw [List.countP_eq_zero]
    intro sp hsp
    have hlb := mainScan_start_lb rest (pos + 2) (pos + 2) none le_rfl
      (fun r hr => Option.noConfusion hr) sp hsp
    simp only [decide_eq_true_eq, not_and]
    intro _
    omega
  rw [h1, h2, h3]
  simp

theorem pairwise_filter_singleton (x : Span) (p : Span → Bool) :
    List.Pairwise (fun a b : Span => a.start < b.start) ([x].filter p) := by
  rw [List.filter_cons]
  split <;> simp

theorem pairwise_filter_closeRun (run : Option Nat) (pos : Nat)
    (p : Span → Bool) :
    List.Pairwise (fun a b : Span => a.start < b.start)
      ((closeRun run pos).filter p) := by
  cases run with
  | none => simp [closeRun_none]
  | some r =>
    rw [closeRun_some]
    split
    · exact pairwise_filter_singleton _ p
    · simp

theorem mainScan_wide_pairwise_aux (n : Nat) :
    ∀ (s : List Nat), s.length ≤ n → ∀ (pos : Nat) (run : Option Nat),
      List.Pairwise (fun a b => a.start < b.start)
        ((mainScan s pos run).filter wideSpan) := by
  induction n with
  | zero =>
    intro s hs pos run
    rw [List.length_eq_zero.mp (Nat.le_zero.mp hs), mainScan_nil]
    simp
  | succ n ih =>
    intro s hs pos run
    cases s with
    | nil => rw [mainScan_nil]; simp
    | cons c rest =>
    have hrest : rest.length ≤ n := by
      simp only [List.length_cons] at hs; omega
    by_cases hA : c = 0xA0
    · subst hA
      have hw : wideSpan (Span.mk pos (pos + 1) .LeadingWhitespace) = false := by
        simp only [wideSpan, decide_eq_false_iff_not]
        omega
      rw [mainScan_nbsp, List.filter_cons, hw]
      simpa using ih rest hrest (pos + 1) run
    · by_cases hB : u_isblank c = true
      · rw [mainScan_blank hA hB]
        exact ih rest hrest (pos + 1) _
      · have hB' : u_isblank c = false := by
          cases h : u_isblank c with
          | false => rfl
          | true => exact absurd h hB
        by_cases hC : c = 92
        · subst hC
          cases rest with
          | nil =>
            rw [mainScan_bs_last]
            exact pairwise_filter_closeRun run pos wideSpan
          | cons d rest2 =>
            have hrest2 : rest2.length ≤ n := by
              simp only [List.length_cons] at hrest; omega
            rw [mainScan_bs, List.filter_append, List.filter_append,
              List.pairwise_append]
            refine ⟨?_, ih rest2 hrest2 (pos + 2) none, ?_⟩
            · rw [List.pairwise_append]
              refine ⟨pairwise_filter_closeRun run pos wideSpan, ?_, ?_⟩
              · split
                · exact pairwise_filter_singleton _ wideSpan
                · simp
              · intro a ha b hb
                obtain ⟨r, hr, hge, rfl⟩ :=
                  mem_closeRun (List.mem_of_mem_filter ha)
                by_cases he : isEscapeChar d = true
                · rw [if_pos he] at hb
                  have hb' := List.mem_of_mem_filter hb
                  rw [List.mem_singleton] at hb'
                  subst hb'
                  show r < pos
                  omega
                · rw [if_neg he] at hb
                  simp at hb
            · intro a ha b hb
              have hb' := mainScan_start_lb rest2 (pos + 2) (pos + 2) none
                le_rfl (fun r hr => Option.noConfusion hr) b
                (List.mem_of_mem_filter hb)
              rcases List.mem_append.mp ha with ha1 | ha2
              · obtain ⟨r, hr, hge, rfl⟩ :=
                  mem_closeRun (List.mem_of_mem_filter ha1)
                show r < b.start
                omega
              · by_cases he : isEscapeChar d = true
                · rw [if_pos he] at ha2
                  have ha2' := List.mem_of_mem_filter ha2
                  rw [List.mem_singleton] at ha2'
                  subst ha2'
                  show pos < b.start
                  omega
                · rw [if_neg he] at ha2
                  simp at ha2
        · rw [mainScan_nonblank hA hB' hC, List.filter_append,
            List.pairwise_append]
          refine ⟨pairwise_filter_closeRun run pos wideSpan,
            ih rest hrest (pos + 1) none, ?_⟩
          intro a ha b hb
          obtain ⟨r, hr, hge, rfl⟩ := mem_closeRun (List.mem_of_mem_filter ha)
          have hb' := mainScan_start_lb rest (pos + 1) (pos + 1) none
            le_rfl (fun r' hr' => Option.noConfusion hr') b
            (List.mem_of_mem_filter hb)
          show r < b.start
          omega

/-! ## C1 and C2: callback sequences of the structural matcher -/

/-- C1 (counterexample): on `"  hello  "` the structural matcher does
not emit exactly the two callbacks `[0,2)` and `[7,9)` — the
duplicate-blank-run pass re-emits the leading run. -/
theorem hello_two_callbacks_false :
    basicHighlight [32, 32, 104, 101, 108, 108, 111, 32, 32] ≠
      [Span.mk 0 2 .LeadingWhitespace, Span.mk 7 9 .LeadingWhitespace] := by
  decide

/-- C1 (amended): on `"  hello  "` the structural matcher emits exactly
three callbacks: `[0,2) -> LeadingWhitespace` (leading scan),
`[7,9) -> LeadingWhitespace` (trailing scan), and `[0,2) ->
LeadingWhitespace` again from the duplicate-blank-run pass, which closes
the leading blank run at the `h`; the trailing run is still open when
the scan ends, so it alone is not re-emitted. -/
theorem hello_emits_three_callbacks :
    basicHighlight [32, 32, 104, 101, 108, 108, 111, 32, 32] =
      [Span.mk 0 2 .LeadingWhitespace, Span.mk 7 9 .LeadingWhitespace,
       Span.mk 0 2 .LeadingWhitespace] := by
  decide

/-- C2 (counterexample): on `"   x"` the structural matcher's
callbacks are `[0,3)`, `[1,2)`, `[0,3)` — the leading-edge span shares
its start with the duplicate-run span and the one-character
non-breaking-space span precedes the run span, so the start positions
are not strictly increasing. -/
theorem starts_not_strictly_increasing :
    ¬ List.Chain' (fun a b : Span => a.start < b.start)
        (basicHighlight [32, 0xA0, 32, 120]) := by
  have h : basicHighlight [32, 0xA0, 32, 120] =
      [Span.mk 0 3 .LeadingWhitespace, Span.mk 1 2 .LeadingWhitespace,
       Span.mk 0 3 .LeadingWhitespace] := by decide
  rw [h]
  intro hch
  rw [List.chain'_cons, List.chain'_cons] at hch
  exact absurd hch.2.1 (by decide)

/-- C2 (amended): within one invocation, the at-most-one leading and
at-most-one trailing edge spans come first; among the forward-pass
callbacks, those at least two code points wide (duplicate-run and
escape spans) have strictly increasing starts. Edge spans may repeat a
forward-pass start and one-character non-breaking-space spans may break
the global increase. -/
theorem forward_pass_wide_starts_increasing (s : List Nat) (pos : Nat) :
    List.Pairwise (fun a b => a.start < b.start)
      ((mainScan s pos none).filter wideSpan) :=
  mainScan_wide_pairwise_aux s.length s le_rfl pos none

/-! ## C4: duplicate blank runs -/

/-- At a non-blank code point the pending run-close emission factors out
of the rest of the scan: the step behaves as the run-close followed by
the same step with no open run. -/
theorem mainScan_run_factor {c : Nat} (hB : u_isblank c = false)
    (rest : List Nat) (pos : Nat) (run : Option Nat) :
    mainScan (c :: rest) pos run =
      closeRun run pos ++ mainScan (c :: rest) pos none := by
  have hA : c ≠ 0xA0 := by
    intro h; subst h; rw [u_isblank_nbsp] at hB; exact Bool.noConfusion hB
  by_cases hC : c = 92
  · subst hC
    cases rest with
    | nil => rw [mainScan_bs_last, mainScan_bs_last, closeRun_none, List.append_nil]
    | cons d r2 =>
      rw [mainScan_bs, mainScan_bs, closeRun_none, List.nil_append,
        List.append_assoc]
  · rw [mainScan_nonblank hA hB hC, mainScan_nonblank hA hB hC, closeRun_none,
      List.nil_append]

theorem mainScan_blank_run_aux (blanks : List Nat) :
    ∀ (c : Nat) (rest : List Nat) (p r : Nat),
      (∀ b ∈ blanks, u_isblank b = true ∧ b ≠ 0xA0) →
      u_isblank c = false → r ≤ p →
      mainScan (blanks ++ c :: rest) p (some r) =
        (if 2 ≤ p + blanks.length - r
         then [Span.mk r (p + blanks.length) .LeadingWhitespace] else [])
          ++ mainScan (c :: rest) (p + blanks.length) none := by
  induction blanks with
  | nil =>
    intro c rest p r _ hc _
    simp only [List.nil_append, List.length_nil, Nat.add_zero]
    rw [mainScan_run_factor hc, closeRun_some]
  | cons b bl ih =>
    intro c rest p r hb hc hrp
    have hb1 := hb b (List.mem_cons_self b bl)
    rw [List.cons_append, mainScan_blank hb1.2 hb1.1, Option.getD_some]
    rw [ih c rest (p + 1) r (fun x hx => hb x (List.mem_cons_of_mem b hx)) hc
      (by omega)]
    simp only [List.length_cons]
    have harith : p + 1 + bl.length = p + (bl.length + 1) := by omega
    rw [harith]

/-- C4: a maximal run of (ordinary) blank code points closed by a
subsequent non-blank code point emits exactly one `LeadingWhitespace`
span covering the whole run when the run is at least two long, and
nothing when it is shorter; in particular `"x   y"` produces exactly the
span `[1,4) -> LeadingWhitespace`. -/
theorem duplicate_blank_run_emission :
    (∀ (blanks : List Nat) (c : Nat) (rest : List Nat) (p : Nat),
        (∀ b ∈ blanks, u_isblank b = true ∧ b ≠ 0xA0) →
        u_isblank c = false →
        mainScan (blanks ++ c :: rest) p none =
          (if 2 ≤ blanks.length
           then [Span.mk p (p + blanks.length) .LeadingWhitespace] else [])
            ++ mainScan (c :: rest) (p + blanks.length) none)
      ∧ basicHighlight [120, 32, 32, 32, 121] =
          [Span.mk 1 4 .LeadingWhitespace] := by
  constructor
  · intro blanks c rest p hb hc
    cases blanks with
    | nil =>
      simp only [List.nil_append, List.length_nil, Nat.add_zero]
      rw [if_neg (by omega)]
      rw [List.nil_append]
    | cons b bl =>
      have hb1 := hb b (List.mem_cons_self b bl)
      rw [List.cons_append, mainScan_blank hb1.2 hb1.1, Option.getD_none]
      rw [mainScan_blank_run_aux bl c rest (p + 1) p
        (fun x hx => hb x (List.mem_cons_of_mem b hx)) hc (by omega)]
      simp only [List.length_cons]
      have harith : p + 1 + bl.length = p + (bl.length + 1) := by omega
      rw [harith]
      congr 1
      exact if_congr (by omega) rfl rfl
  · decide

theorem duplicate_blank_run_emission_witness :
    mainScan ([32, 32] ++ 120 :: []) 0 none =
      (if 2 ≤ ([32, 32] : List Nat).length
       then [Span.mk 0 (0 + ([32, 32] : List Nat).length) .LeadingWhitespace]
       else [])
        ++ mainScan (120 :: []) (0 + ([32, 32] : List Nat).length) none :=
  duplicate_blank_run_emission.1 [32, 32] 120 [] 0 (by decide) (by decide)

/-! ## C9: every emitted span is a non-empty, in-bounds range -/

theorem mainScan_bounds_aux (n : Nat) :
    ∀ (s : List Nat), s.length ≤ n → ∀ (pos : Nat) (run : Option Nat),
      ∀ sp ∈ mainScan s pos run,
        sp.start < sp.stop ∧ sp.stop ≤ pos + s.length := by
  induction n with
  | zero =>
    intro s hs pos run sp hsp
    rw [List.length_eq_zero.mp (Nat.le_zero.mp hs), mainScan_nil] at hsp
    cases hsp
  | succ n ih =>
    intro s hs pos run sp hsp
    cases s with
    | nil => rw [mainScan_nil] at hsp; cases hsp
    | cons c rest =>
    have hrest : rest.length ≤ n := by
      simp only [List.length_cons] at hs; omega
    simp only [List.length_cons]
    by_cases hA : c = 0xA0
    · subst hA
      rw [mainScan_nbsp] at hsp
      rcases List.mem_cons.mp hsp with rfl | h2
      · dsimp only; omega
      · have := ih rest hrest (pos + 1) run sp h2
        omega
    · by_cases hB : u_isblank c = true
      · rw [mainScan_blank hA hB] at hsp
        have := ih rest hrest (pos + 1) _ sp hsp
        omega
      · have hB' : u_isblank c = false := by
          cases h : u_isblank c with
          | false => rfl
          | true => exact absurd h hB
        by_cases hC : c = 92
        · subst hC
          cases rest with
          | nil =>
            rw [mainScan_bs_last] at hsp
            obtain ⟨r, hr, hge, rfl⟩ := mem_closeRun hsp
            dsimp only; omega
          | cons d rest2 =>
            have hrest2 : rest2.length ≤ n := by
              simp only [List.length_cons] at hrest; omega
            rw [mainScan_bs] at hsp
            simp only [List.length_cons]
            rcases List.mem_append.mp hsp with h1 | h2
            · rcases List.mem_append.mp h1 with h3 | h4
              · obtain ⟨r, hr, hge, rfl⟩ := mem_closeRun h3
                dsimp only; omega
              · by_cases he : isEscapeChar d = true
                · rw [if_pos he, List.mem_singleton] at h4
                  subst h4
                  dsimp only; omega
                · rw [if_neg he] at h4; cases h4
            · have := ih rest2 hrest2 (pos + 2) none sp h2
              omega
        · rw [mainScan_nonblank hA hB' hC] at hsp
          rcases List.mem_append.mp hsp with h1 | h2
          · obtain ⟨r, hr, hge, rfl⟩ := mem_closeRun h1
            dsimp only; omega
          · have := ih rest hrest (pos + 1) none sp h2
            omega

theorem mainScan_bounds (s : List Nat) (pos : Nat) (run : Option Nat) :
    ∀ sp ∈ mainScan s pos run,
      sp.start < sp.stop ∧ sp.stop ≤ pos + s.length :=
  mainScan_bounds_aux s.length s le_rfl pos run

theorem leadingScan_bounds (s : List Nat) :
    ∀ (n : Nat), ∀ sp ∈ leadingScan s n,
      sp.start = 0 ∧ 0 < sp.stop ∧ sp.stop ≤ n + s.length := by
  induction s with
  | nil => intro n sp hsp; cases hsp
  | cons c rest ih =>
    intro n sp hsp
    simp only [leadingScan] at hsp
    by_cases hB : u_isblank c = true
    · rw [if_pos hB] at hsp
      have := ih (n + 1) sp hsp
      simp only [List.length_cons]
      omega
    · rw [if_neg hB] at hsp
      by_cases hn : n ≠ 0
      · rw [if_pos hn, List.mem_singleton] at hsp
        subst hsp
        refine ⟨rfl, ?_, ?_⟩
        · show 0 < n
          omega
        · show n ≤ n + (c :: rest).length
          omega
      · rw [if_neg hn] at hsp; cases hsp

theorem trailingScan_bounds (L : Nat) (s : List Nat) :
    ∀ (n : Nat), ∀ sp ∈ trailingScan L s n,
      sp.stop = L ∧ (0 < L → sp.start < L) := by
  induction s with
  | nil => intro n sp hsp; cases hsp
  | cons c rest ih =>
    intro n sp hsp
    simp only [trailingScan] at hsp
    by_cases hB : u_isblank c = true
    · rw [if_pos hB] at hsp
      exact ih (n + 1) sp hsp
    · rw [if_neg hB] at hsp
      by_cases hn : n ≠ 0
      · rw [if_pos hn, List.mem_singleton] at hsp
        subst hsp
        dsimp only
        omega
      · rw [if_neg hn] at hsp; cases hsp

theorem basicHighlight_bounds (s : List Nat) :
    ∀ sp ∈ basicHighlight s, sp.start < sp.stop ∧ sp.stop ≤ s.length := by
  intro sp hsp
  simp only [basicHighlight] at hsp
  by_cases hne : s.isEmpty = true
  · rw [if_pos hne] at hsp; cases hsp
  · rw [if_neg hne] at hsp
    have hlen : 0 < s.length := by
      cases s with
      | nil => exact absurd rfl hne
      | cons a t => simp
    rcases List.mem_append.mp hsp with h1 | h2
    · rcases List.mem_append.mp h1 with h3 | h4
      · have := leadingScan_bounds s 0 sp h3
        omega
      · have := trailingScan_bounds s.length s.reverse 0 sp h4
        omega
    · have := mainScan_bounds s 0 none sp h2
      omega

theorem matchSpans_bounds (kind : TextKind) (ms : List RegexMatch) (len : Nat)
    (h : ∀ m ∈ ms, m.position + m.length ≤ len) :
    ∀ sp ∈ matchSpans kind ms, sp.start < sp.stop ∧ sp.stop ≤ len := by
  intro sp hsp
  simp only [matchSpans, List.mem_map, List.mem_filter, decide_eq_true_eq,
    ne_eq] at hsp
  obtain ⟨m, ⟨hm, hlen0⟩, rfl⟩ := hsp
  have := h m hm
  dsimp only
  omega

theorem regexHighlight_bounds (kind : TextKind) (res : RegexRunResult)
    (len : Nat) (h : ∀ m ∈ matchesOf res, m.position + m.length ≤ len) :
    ∀ sp ∈ (regexHighlight kind res).1,
      sp.start < sp.stop ∧ sp.stop ≤ len := by
  cases res with
  | ok ms => exact matchSpans_bounds kind ms len h
  | raised ms code => cases code <;> exact matchSpans_bounds kind ms len h

theorem compositeHighlight_bounds
    (interp : HighlighterId → List Nat → List Span) (s : List Nat) :
    ∀ (subs : List HighlighterId),
      (∀ hid ∈ subs, ∀ sp ∈ interp hid s,
        sp.start < sp.stop ∧ sp.stop ≤ s.length) →
      ∀ sp ∈ compositeHighlight interp subs s,
        sp.start < sp.stop ∧ sp.stop ≤ s.length := by
  intro subs
  induction subs with
  | nil => intro _ sp hsp; cases hsp
  | cons hd tl ih =>
    intro h sp hsp
    rcases List.mem_append.mp hsp with h1 | h2
    · exact h hd (List.mem_cons_self hd tl) sp h1
    · exact ih (fun x hx sp' hsp' => h x (List.mem_cons_of_mem hd hx) sp' hsp')
        sp h2

/-- C9: every highlight callback emitted by any matcher satisfies
`0 <= start < stop <= length`: the structural matcher unconditionally;
the pattern matcher whenever the abstracted regex engine reports matches
lying within the input (empty matches are skipped, so `start < stop`);
and the composite matcher whenever each sub-matcher does. -/
theorem all_spans_in_bounds :
    (∀ (s : List Nat), ∀ sp ∈ basicHighlight s,
        sp.start < sp.stop ∧ sp.stop ≤ s.length)
      ∧ (∀ (kind : TextKind) (res : RegexRunResult) (len : Nat),
          (∀ m ∈ matchesOf res, m.position + m.length ≤ len) →
          ∀ sp ∈ (regexHighlight kind res).1,
            sp.start < sp.stop ∧ sp.stop ≤ len)
      ∧ (∀ (interp : HighlighterId → List Nat → List Span)
            (subs : List HighlighterId) (s : List Nat),
          (∀ hid ∈ subs, ∀ sp ∈ interp hid s,
            sp.start < sp.stop ∧ sp.stop ≤ s.length) →
          ∀ sp ∈ compositeHighlight interp subs s,
            sp.start < sp.stop ∧ sp.stop ≤ s.length) :=
  ⟨basicHighlight_bounds, regexHighlight_bounds,
    fun interp subs s h => compositeHighlight_bounds interp s subs h⟩

theorem all_spans_in_bounds_witness :
    (Span.mk 0 2 TextKind.Placeholder).start <
        (Span.mk 0 2 TextKind.Placeholder).stop
      ∧ (Span.mk 0 2 TextKind.Placeholder).stop ≤ 5 :=
  all_spans_in_bounds.2.1 TextKind.Placeholder
    (.ok [RegexMatch.mk 0 2]) 5 (by decide)
    (Span.mk 0 2 TextKind.Placeholder) (by decide)

/-! ## C5: pattern-engine failure semantics -/

/-- C5: when the regex engine raises `error_complexity` or
`error_stack`, the pattern matcher returns normally having emitted the
spans of every match found before the failure and propagates nothing;
any other engine error propagates to the caller after those same
emissions. -/
theorem regex_error_recovery (kind : TextKind) (ms : List RegexMatch)
    (code : RegexErrorCode) :
    ((code = .error_complexity ∨ code = .error_stack) →
        regexHighlight kind (.raised ms code) = (matchSpans kind ms, none))
      ∧ (code ≠ .error_complexity → code ≠ .error_stack →
          regexHighlight kind (.raised ms code) =
            (matchSpans kind ms, some code)) := by
  cases code with
  | error_complexity =>
    exact ⟨fun _ => rfl, fun h _ => absurd rfl h⟩
  | error_stack =>
    exact ⟨fun _ => rfl, fun _ h => absurd rfl h⟩
  | other n =>
    refine ⟨fun h => ?_, fun _ _ => rfl⟩
    rcases h with h | h <;> exact RegexErrorCode.noConfusion h

theorem regex_error_recovery_witness :
    regexHighlight TextKind.Markup (.raised [] .error_complexity) =
      (matchSpans TextKind.Markup [], none) :=
  (regex_error_recovery TextKind.Markup [] .error_complexity).1 (Or.inl rfl)

/-! ## C8: the ruby-format pattern equals the c-format pattern -/

/-- C8: the ruby-format placeholder grammar is the c-format grammar: the
two pattern texts are identical, so a pattern matcher built from
`RE_RUBY_FORMAT` emits exactly the spans of one built from
`RE_C_FORMAT` under any engine semantics, on every input. -/
theorem ruby_format_equals_c_format :
    RE_RUBY_FORMAT = RE_C_FORMAT
      ∧ ∀ (engine : String → List Nat → List RegexMatch) (kind : TextKind)
          (s : List Nat),
          regexEngineSpans engine RE_RUBY_FORMAT kind s =
            regexEngineSpans engine RE_C_FORMAT kind s :=
  ⟨rfl, fun _ _ _ => rfl⟩

/-! ## C6, C7, C10: the selector -/

theorem compositeHighlight_nil (interp : HighlighterId → List Nat → List Span)
    (s : List Nat) : compositeHighlight interp [] s = [] := rfl

theorem compositeHighlight_singleton
    (interp : HighlighterId → List Nat → List Span) (x : HighlighterId)
    (s : List Nat) : compositeHighlight interp [x] s = interp x s := by
  show interp x s ++ [] = interp x s
  exact List.append_nil _

theorem compositeHighlight_append
    (interp : HighlighterId → List Nat → List Span)
    (l₁ l₂ : List HighlighterId) (s : List Nat) :
    compositeHighlight interp (l₁ ++ l₂) s =
      compositeHighlight interp l₁ s ++ compositeHighlight interp l₂ s := by
  induction l₁ with
  | nil => rfl
  | cons hd tl ih =>
    show interp hd s ++ compositeHighlight interp (tl ++ l₂) s =
      (interp hd s ++ compositeHighlight interp tl s)
        ++ compositeHighlight interp l₂ s
    rw [ih, List.append_assoc]

theorem compositeHighlight_ite
    (interp : HighlighterId → List Nat → List Span) (b : Prop)
    [Decidable b] (l₁ l₂ : List HighlighterId) (s : List Nat) :
    compositeHighlight interp (if b then l₁ else l₂) s =
      if b then compositeHighlight interp l₁ s
      else compositeHighlight interp l₂ s := by
  split <;> rfl

/-- C6: for an item with empty format kind whose strings match neither
the markup pattern nor the generic-placeholder pattern, the selector
returns the shared structural matcher exactly when the mask includes
LeadingWhitespace or Escape, and no matcher otherwise (in particular for
a Placeholder-only mask). -/
theorem selector_plain_text_basic_or_none {α : Type}
    (hs ps : α → Bool) (item : CatalogItem α) (mask : KindsMask)
    (hflag : item.formatFlag = "")
    (h1 : hs item.getString = false)
    (h2 : item.hasPlural = true → hs item.getPluralString = false)
    (h3 : ps item.getString = false)
    (h4 : item.hasPlural = true → ps item.getPluralString = false) :
    ForItem hs ps item mask =
      (if mask.leadingWhitespace || mask.escape
       then SelResult.basicOnly else SelResult.noMatcher) := by
  have hH : (hs item.getString ||
      (item.hasPlural && hs item.getPluralString)) = false := by
    cases hp : item.hasPlural with
    | false => simp [h1]
    | true => simp [h1, h2 hp]
  have hP : (ps item.getString ||
      (item.hasPlural && ps item.getPluralString)) = false := by
    cases hp : item.hasPlural with
    | false => simp [h3]
    | true => simp [h3, h4 hp]
  simp only [ForItem, hH, hP, hflag, Bool.and_false, Bool.not_false,
    Bool.true_and, beq_self_eq_true, if_true]

theorem selector_plain_text_basic_or_none_witness :
    ForItem (fun _ : Nat => false) (fun _ : Nat => false)
      (CatalogItem.mk 0 false 0 "") (KindsMask.mk false false false true) =
      (if (KindsMask.mk false false false true).leadingWhitespace ||
          (KindsMask.mk false false false true).escape
       then SelResult.basicOnly else SelResult.noMatcher) :=
  selector_plain_text_basic_or_none (fun _ => false) (fun _ => false)
    (CatalogItem.mk 0 false 0 "") (KindsMask.mk false false false true)
    rfl rfl (fun _ => rfl) rfl (fun _ => rfl)

/-- C7: whenever the selector returns a composite matcher, running it
invokes the selected sub-matchers against the same text and callback in
exactly the order markup sniffing, generic-placeholder sniffing, the
single language-specific placeholder matcher for a declared
php/c/python/ruby format kind (an unknown non-empty kind adds nothing),
and the structural matcher last, so each sub-matcher's callbacks form a
contiguous block in that order. -/
theorem composite_submatcher_order {α : Type}
    (hs ps : α → Bool) (item : CatalogItem α) (mask : KindsMask)
    (subs : List HighlighterId)
    (h : ForItem hs ps item mask = .composite subs)
    (interp : HighlighterId → List Nat → List Span) (s : List Nat) :
    compositeHighlight interp subs s =
      (if mask.markup && (hs item.getString ||
          (item.hasPlural && hs item.getPluralString))
       then interp .html s else []) ++
      (if mask.placeholder && (ps item.getString ||
          (item.hasPlural && ps item.getPluralString))
       then interp .genericPlaceholders s else []) ++
      (if mask.placeholder then
         (if item.formatFlag == "php" then interp .php_format s
          else if item.formatFlag == "c" then interp .c_format s
          else if item.formatFlag == "python" then interp .python_format s
          else if item.formatFlag == "ruby" then interp .ruby_format s
          else [])
       else []) ++
      (if mask.leadingWhitespace || mask.escape
       then interp .basic s else []) := by
  rw [ForItem] at h
  split at h
  · split at h <;> exact SelResult.noConfusion h
  · injection h with h
    subst h
    rw [compositeHighlight_append, compositeHighlight_append,
      compositeHighlight_append]
    simp only [compositeHighlight_ite, compositeHighlight_singleton,
      compositeHighlight_nil]

theorem composite_submatcher_order_witness :
    compositeHighlight (fun _ _ => ([] : List Span))
      [HighlighterId.html, HighlighterId.basic] [] = [] := by
  have h := composite_submatcher_order (fun _ : Nat => true)
    (fun _ : Nat => false) (CatalogItem.mk 0 false 0 "")
    (KindsMask.mk true false true false)
    [HighlighterId.html, HighlighterId.basic] (by decide)
    (fun _ _ => ([] : List Span)) []
  simpa using h

/-- C10: for an item with a non-empty format kind other than c, php,
python and ruby, strings matching neither sniffing pattern, and a mask
excluding LeadingWhitespace and Escape, the selector returns a non-null
composite matcher with zero sub-matchers — inert: its invocation emits
no callbacks on any input — rather than no matcher. -/
theorem selector_unknown_format_inert {α : Type}
    (hs ps : α → Bool) (item : CatalogItem α) (mask : KindsMask)
    (hne : item.formatFlag ≠ "")
    (hphp : item.formatFlag ≠ "php") (hcf : item.formatFlag ≠ "c")
    (hpy : item.formatFlag ≠ "python") (hrb : item.formatFlag ≠ "ruby")
    (h1 : hs item.getString = false)
    (h2 : item.hasPlural = true → hs item.getPluralString = false)
    (h3 : ps item.getString = false)
    (h4 : item.hasPlural = true → ps item.getPluralString = false)
    (hlw : mask.leadingWhitespace = false) (hesc : mask.escape = false) :
    ForItem hs ps item mask = .composite []
      ∧ ∀ (interp : HighlighterId → List Nat → List Span) (s : List Nat),
          compositeHighlight interp [] s = [] := by
  refine ⟨?_, fun _ _ => rfl⟩
  have hH : (hs item.getString ||
      (item.hasPlural && hs item.getPluralString)) = false := by
    cases hp : item.hasPlural with
    | false => simp [h1]
    | true => simp [h1, h2 hp]
  have hP : (ps item.getString ||
      (item.hasPlural && ps item.getPluralString)) = false := by
    cases hp : item.hasPlural with
    | false => simp [h3]
    | true => simp [h3, h4 hp]
  have hbne : (item.formatFlag == "") = false := beq_eq_false_iff_ne.mpr hne
  have hbphp : (item.formatFlag == "php") = false := beq_eq_false_iff_ne.mpr hphp
  have hbcf : (item.formatFlag == "c") = false := beq_eq_false_iff_ne.mpr hcf
  have hbpy : (item.formatFlag == "python") = false :=
    beq_eq_false_iff_ne.mpr hpy
  have hbrb : (item.formatFlag == "ruby") = false := beq_eq_false_iff_ne.mpr hrb
  simp [ForItem, hH, hP, hlw, hesc, hbne, hbphp, hbcf, hbpy, hbrb]

theorem selector_unknown_format_inert_witness :
    ForItem (fun _ : Nat => false) (fun _ : Nat => false)
      (CatalogItem.mk 0 false 0 "gettext-custom")
      (KindsMask.mk false false false true) = SelResult.composite []
      ∧ ∀ (interp : HighlighterId → List Nat → List Span) (s : List Nat),
          compositeHighlight interp [] s = [] :=
  selector_unknown_format_inert (fun _ => false) (fun _ => false)
    (CatalogItem.mk 0 false 0 "gettext-custom")
    (KindsMask.mk false false false true)
    (by decide) (by decide) (by decide) (by decide) (by decide)
    rfl (fun _ => rfl) rfl (fun _ => rfl) rfl rfl
